import Mathlib

/-!
Shallow embedding of the data-preparation pipeline of `src/streamlit_app.py`
(lines 28-64): CSV loading with column deduplication, temporal-column
detection and indexing, pollutant-candidate classification, date-range
filtering, numeric coercion with a validity gate, and daily resampling.

Modelling conventions:
* A cell is untyped CSV data.  `Cell.num q` stands for a cell that
  `pd.to_numeric` can interpret as the number `q`; `Cell.str s` stands for a
  non-numeric, non-temporal token; `Cell.ts t` stands for a cell that
  `pd.to_datetime` can parse as the timestamp `t`; `Cell.na` is a missing
  value (NaN).  Machine floats are modelled by `ℚ`.
* A timestamp is a calendar day (days since an arbitrary epoch, `ℤ`)
  together with a time of day (seconds, `ℕ`); the "date component" used by
  `df.index.date` and by `resample("D")` is the `day` field.
* `pd.read_csv` (line 28) never delivers duplicate header names: its
  `dedup_names` renaming makes them unique ("X", "X.1", ..., with a
  collision-resolving loop) in every pandas version; `mangle` models this,
  so line 29's duplicate-drop (`dedupColumns`) never finds a duplicate.
* `df.sort_values(by=date_col)` (line 39) orders rows by the key, but its
  default `kind='quicksort'` is documented by pandas as not stable: the
  library promises nothing about the order of equal keys.
  `sortValuesAdmissible` captures exactly that contract; the executable
  `tIndex` resolves the unspecified tie order with one admissible choice
  (a stable insertion sort) so the pipeline stays a function, and no
  theorem below relies on that choice.
* `df.resample("D").mean()` (line 62) aggregates only numeric columns:
  when a non-numeric (object-dtype) column is present, pandas ≥ 2.0
  raises `TypeError` — modelled as `Except.error` — while pandas ≤ 1.x
  silently dropped such columns.  A column is numeric when every cell is
  a number or missing.
* Streamlit control flow: `st.warning` accumulates a message, `st.stop`
  ends the run, and an uncaught Python exception is a `crash`.
-/

/-- A timestamp: calendar day plus time of day (seconds within the day). -/
structure Ts where
  day : Int
  sec : Nat
deriving DecidableEq

/-- Ascending order on timestamps: by calendar day, then by time of day. -/
def Ts.le (a b : Ts) : Prop :=
  a.day < b.day ∨ (a.day = b.day ∧ a.sec ≤ b.sec)

instance (a b : Ts) : Decidable (Ts.le a b) := by
  unfold Ts.le; infer_instance

/-- One cell of a parsed CSV table. -/
inductive Cell where
  | na
  | num (q : ℚ)
  | str (s : String)
  | ts (t : Ts)
deriving DecidableEq

/-- A raw table: a header row of column names and data rows of cells
(`pd.read_csv` output).  Rows are positionally aligned with the header. -/
structure Table where
  cols : List String
  rows : List (List Cell)
deriving DecidableEq

/-- A time-indexed table (`df.set_index(date_col)` output): each data row is
keyed by its parsed timestamp; the temporal column itself is no longer a
data column. -/
structure TTable where
  cols : List String
  rows : List (Ts × List Cell)
deriving DecidableEq

instance {e a : Type} [DecidableEq e] [DecidableEq a] : DecidableEq (Except e a)
  | Except.error x, Except.error y =>
      if h : x = y then isTrue (by rw [h]) else isFalse (by intro hh; cases hh; exact h rfl)
  | Except.error x, Except.ok y => isFalse (by intro hh; cases hh)
  | Except.ok x, Except.error y => isFalse (by intro hh; cases hh)
  | Except.ok x, Except.ok y =>
      if h : x = y then isTrue (by rw [h]) else isFalse (by intro hh; cases hh; exact h rfl)

/-- A row is rectangular when it has one cell per header column. -/
def Rect (t : Table) : Prop :=
  ∀ r ∈ t.rows, r.length = t.cols.length

instance (t : Table) : Decidable (Rect t) :=
  List.decidableBAll _ t.rows

/-! ## Table Loader (lines 28-29): column deduplication -/

/-- For each column position (left to right), whether its name has not
occurred before; `seen` holds the names already passed
(`~df.columns.duplicated()`). -/
def dupKeep (seen : List String) : List String → List Bool
  | [] => []
  | c :: cs => (!seen.contains c) :: dupKeep (c :: seen) cs

/-- Keep exactly the entries whose mask bit is `true`. -/
def maskKeep {α : Type} : List Bool → List α → List α
  | true :: ms, x :: xs => x :: maskKeep ms xs
  | false :: ms, _ :: xs => maskKeep ms xs
  | _, _ => []

/-- Line 29: `df = df.loc[:, ~df.columns.duplicated()]` — drop every column
whose name already occurred further left. -/
def dedupColumns (t : Table) : Table :=
  ⟨maskKeep (dupKeep [] t.cols) t.cols, t.rows.map (maskKeep (dupKeep [] t.cols))⟩

/-- The data of the column named `c`: for each row, the cell at the
left-most header position named `c` (missing if there is none). -/
def Table.col (t : Table) (c : String) : List Cell :=
  t.rows.map (fun r => r.getD (t.cols.indexOf c) Cell.na)

/-- The running name-use counters of pandas' `dedup_names` (line 28), an
association list behaving like `defaultdict(int)`: absent keys count 0. -/
def cGet (m : List (String × Nat)) (k : String) : Nat :=
  match m.find? (fun p => p.1 == k) with
  | some p => p.2
  | none => 0

/-- Update (or insert) one counter. -/
def cSet : List (String × Nat) → String → Nat → List (String × Nat)
  | [], k, v => [(k, v)]
  | p :: ps, k, v => if p.1 == k then (k, v) :: ps else p :: cSet ps k v

/-- The collision-resolving loop of `dedup_names`: while the current name
is already in use, bump its counter and append ".<count>" to the name.
`fuel` bounds the iterations; any fuel above the number of in-use names
of sufficient length terminates the loop properly (see `resolve_cGet_eq_zero`). -/
def resolve : Nat → List (String × Nat) → String → String × List (String × Nat)
  | 0, m, col => (col, m)
  | fuel + 1, m, col =>
      match cGet m col with
      | 0 => (col, m)
      | c + 1 => resolve fuel (cSet m col (c + 2)) (col ++ "." ++ toString (c + 1))

/-- `dedup_names` proper: process header names left to right, renaming
every name that is already taken, then mark the assigned name as used. -/
def mangleGo : List (String × Nat) → List String → List String
  | _, [] => []
  | m, col :: rest =>
      let r := resolve (m.length + 1) m col
      r.1 :: mangleGo (cSet r.2 r.1 (cGet r.2 r.1 + 1)) rest

/-- Duplicate-header handling of `pd.read_csv` (line 28): header names
are made unique ("X", "X.1", ...) before the frame is built (the
`mangle_dupe_cols` behavior, mandatory in every pandas version). -/
def mangle (cols : List String) : List String :=
  mangleGo [] cols

/-- The Table Loader (lines 28-29): `pd.read_csv` renames duplicate
headers, then line 29 drops duplicate-named columns — in practice a
no-op, since the delivered names are already unique. -/
def loadTable (t : Table) : Table :=
  dedupColumns ⟨mangle t.cols, t.rows⟩

/-- The number of in-use names of length at least `n`: the termination
measure of `resolve` (each rename strictly lengthens the name). -/
def posLong (m : List (String × Nat)) (n : Nat) : Nat :=
  (m.filter (fun p => decide (0 < p.2) && decide (n ≤ p.1.length))).length

/-! ## Temporal Indexer (lines 31-40) -/

/-- `needle` occurs at the start of `hay`. -/
def startsWithL : List Char → List Char → Bool
  | [], _ => true
  | _ :: _, [] => false
  | a :: as, b :: bs => a == b && startsWithL as bs

/-- `needle` occurs contiguously somewhere in `hay`. -/
def hasSubL (needle : List Char) : List Char → Bool
  | [] => needle.isEmpty
  | b :: bs => startsWithL needle (b :: bs) || hasSubL needle bs

/-- Python's `needle in c.lower()` (lower-casing character by character). -/
def nameHas (c : String) (needle : String) : Bool :=
  hasSubL needle.toList (c.toList.map Char.toLower)

/-- Line 33: `"date" in c.lower() or "time" in c.lower()`. -/
def isTemporalName (c : String) : Bool :=
  nameHas c "date" || nameHas c "time"

/-- Lines 31-35: the first (left-most) column whose lowercased name
contains "date" or "time", if any. -/
def findDateCol (cols : List String) : Option String :=
  cols.find? isTemporalName

/-- Line 37, `pd.to_datetime(df[date_col], errors="coerce")` on one cell:
timestamp-parseable cells yield their timestamp, everything else `NaT`. -/
def toDatetime : Cell → Option Ts
  | Cell.ts t => some t
  | _ => none

/-- Ordering of indexed rows by their timestamp key. -/
def rowLe (p q : Ts × List Cell) : Prop := Ts.le p.1 q.1

instance : DecidableRel rowLe := fun p q => by
  unfold rowLe; infer_instance

instance : IsTotal (Ts × List Cell) rowLe :=
  ⟨by
    intro a b
    unfold rowLe Ts.le
    rcases lt_trichotomy a.1.day b.1.day with h | h | h
    · exact Or.inl (Or.inl h)
    · rcases Nat.le_total a.1.sec b.1.sec with hs | hs
      · exact Or.inl (Or.inr ⟨h, hs⟩)
      · exact Or.inr (Or.inr ⟨h.symm, hs⟩)
    · exact Or.inr (Or.inl h)⟩

instance : IsTrans (Ts × List Cell) rowLe :=
  ⟨by
    intro a b c hab hbc
    unfold rowLe Ts.le at hab hbc ⊢
    rcases hab with h1 | ⟨h1, h1s⟩ <;> rcases hbc with h2 | ⟨h2, h2s⟩
    · exact Or.inl (h1.trans h2)
    · exact Or.inl (by omega)
    · exact Or.inl (by omega)
    · exact Or.inr ⟨h1.trans h2, h1s.trans h2s⟩⟩

/-- Lines 37-38 fused: parse the temporal column (position `j`) of every
row and drop the rows whose value fails to parse (`dropna(subset=[date_col])`);
`set_index` later removes the column from the data cells (`eraseIdx`). -/
def validRows (t : Table) (j : Nat) : List (Ts × List Cell) :=
  t.rows.filterMap (fun r => (toDatetime (r.getD j Cell.na)).map (fun ts => (ts, r.eraseIdx j)))

/-- The documented contract of `df.sort_values(by=date_col)` with the
default `kind='quicksort'` (line 39): the output is some permutation of
the input that is non-decreasing in the timestamp key.  pandas documents
quicksort as not stable, so nothing is promised about the relative order
of equal keys: every list satisfying this predicate is an admissible
result of the call. -/
def sortValuesAdmissible (src out : List (Ts × List Cell)) : Prop :=
  out.Perm src ∧ out.Pairwise rowLe

/-- An admissible result of the whole Temporal Indexer (lines 37-40): the
temporal column is parsed and removed from the data columns, rows with
unparseable values are dropped, and the surviving rows appear in some
admissible sort order. -/
def tIndexAdmissible (t : Table) (c : String) (out : TTable) : Prop :=
  out.cols = t.cols.erase c
    ∧ sortValuesAdmissible (validRows t (t.cols.indexOf c)) out.rows

instance (t : Table) (c : String) (out : TTable) : Decidable (tIndexAdmissible t c out) := by
  unfold tIndexAdmissible sortValuesAdmissible
  infer_instance

/-- Lines 37-40: parse the temporal column, drop unparseable rows, sort
ascending by timestamp (`sort_values`), and promote the column to the
index (`set_index`, removing it from the data columns).  The tie order of
the default quicksort is unspecified; this executable model resolves it
with one admissible choice (a stable insertion sort) — no theorem below
depends on that choice, only on `tIndexAdmissible`. -/
def tIndex (t : Table) (c : String) : TTable :=
  ⟨t.cols.erase c, List.insertionSort rowLe (validRows t (t.cols.indexOf c))⟩

/-! ## Column Classifier (line 44) -/

/-- The fixed pollutant-name substrings of line 44. -/
def pollutantNames : List String := ["pm2", "pm10", "no2", "so2", "co", "o3"]

/-- `any(x in c.lower() for x in [...])`. -/
def isPollutantName (c : String) : Bool :=
  pollutantNames.any (fun x => nameHas c x)

/-- Line 44: `[c for c in df.columns if any(x in c.lower() for x in [...])]`. -/
def pollutantCols (cols : List String) : List String :=
  cols.filter isPollutantName

/-! ## Range Filter (line 55) -/

/-- Line 55: `df.loc[(df.index.date >= start_date) & (df.index.date <= end_date)]`
keeps the rows whose date component lies in `[sd, ed]`; the columns are
untouched. -/
def rangeFilter (t : TTable) (sd ed : Int) : TTable :=
  ⟨t.cols, t.rows.filter (fun p => decide (sd ≤ p.1.day) && decide (p.1.day ≤ ed))⟩

/-! ## Numeric Coercion & Validity Gate (lines 60-61) -/

/-- `pd.to_numeric(cell, errors="coerce")`: numbers survive, every other
cell (non-numeric token, missing, timestamp) becomes missing. -/
def toNumeric : Cell → Cell
  | Cell.num q => Cell.num q
  | _ => Cell.na

def isNA : Cell → Bool
  | Cell.na => true
  | _ => false

/-- Line 60 on one row: coerce exactly the cells of the selected columns,
leaving the other cells untouched. -/
def coerceRow (cols sel : List String) (r : List Cell) : List Cell :=
  (cols.zip r).map (fun p => if sel.contains p.1 then toNumeric p.2 else p.2)

/-- The cells of a row lying in the selected columns (the
`subset=selected_pollutants` view of line 61). -/
def selCells (cols sel : List String) (r : List Cell) : List Cell :=
  ((cols.zip r).filter (fun p => sel.contains p.1)).map (fun p => p.2)

/-- Lines 60-61: coerce the selected columns to numeric, then
`dropna(subset=selected, how="all")` — drop each row whose selected cells
are all missing. -/
def validityGate (t : TTable) (sel : List String) : TTable :=
  ⟨t.cols,
    (t.rows.map (fun p => (p.1, coerceRow t.cols sel p.2))).filter
      (fun p => !(selCells t.cols sel p.2).all isNA)⟩

/-! ## Daily Resampler (line 62) -/

/-- The calendar days of the index, in row order. -/
def daysOf (t : TTable) : List Int :=
  t.rows.map (fun p => p.1.day)

/-- First bin of `resample("D")`: the day of `df.index.min()` (0 is a
don't-care value for the unreachable empty case). -/
def spanLo (t : TTable) : Int :=
  match daysOf t with
  | [] => 0
  | d :: ds => ds.foldl min d

/-- Last bin of `resample("D")`: the day of `df.index.max()`. -/
def spanHi (t : TTable) : Int :=
  match daysOf t with
  | [] => 0
  | d :: ds => ds.foldl max d

/-- The consecutive days `lo, lo+1, ..., hi`. -/
def dayRange (lo hi : Int) : List Int :=
  (List.range (hi - lo + 1).toNat).map (fun (k : Nat) => lo + (k : Int))

/-- The numeric values recorded on day `d` in column position `j`
(missing and non-numeric cells do not contribute to the mean). -/
def numsOn (t : TTable) (d : Int) (j : Nat) : List ℚ :=
  (t.rows.filter (fun p => decide (p.1.day = d))).filterMap
    (fun p => match p.2.getD j Cell.na with
      | Cell.num q => some q
      | _ => none)

/-- The mean cell for day `d`, column `j`: the arithmetic mean of the
valid values, or missing when there is none (`mean()` skips NaN and
yields NaN on an all-NaN group). -/
def meanCell (t : TTable) (d : Int) (j : Nat) : Cell :=
  match numsOn t d j with
  | [] => Cell.na
  | q :: qs => Cell.num ((q :: qs).sum / ((q :: qs).length : ℚ))

/-- Column `j` holds numeric data: every cell is a number or missing.  A
column containing a non-numeric token (or an unparsed timestamp) has
object dtype in the frame and is not aggregatable by `mean()`. -/
def numericCol (t : TTable) (j : Nat) : Bool :=
  t.rows.all (fun p =>
    match p.2.getD j Cell.na with
    | Cell.num _ => true
    | Cell.na => true
    | _ => false)

/-- Line 62: `df.resample("D").mean()`.  On an all-numeric frame, one row
per calendar day from the first to the last day of the index (days
without data included, their values all missing), each cell the mean of
that day's valid values.  When a non-numeric (object-dtype) column is
present, pandas ≥ 2.0 raises `TypeError` (modelled here); pandas ≤ 1.x
silently dropped such columns instead. -/
def resampleDaily (t : TTable) : Except String TTable :=
  if (List.range t.cols.length).all (fun j => numericCol t j) then
    Except.ok
      (match t.rows with
       | [] => ⟨t.cols, []⟩
       | _ :: _ =>
           ⟨t.cols,
             (dayRange (spanLo t) (spanHi t)).map
               (fun d => (⟨d, 0⟩, (List.range t.cols.length).map (meanCell t d)))⟩)
  else
    Except.error "TypeError: agg function failed [how->mean, dtype->object]"

/-! ## The whole run (lines 28-64) -/

/-- A clean `st.stop` of the script. -/
inductive Halt where
  /-- Lines 50-52: no pollutant selected. -/
  | emptySelection
  /-- Lines 56-58: the date-filtered table is empty. -/
  | emptyRange
deriving DecidableEq

/-- How a run ends: an uncaught Python exception, a clean `st.stop`, or
the daily table handed to all downstream analysis and rendering. -/
inductive RunResult where
  | crash (msg : String)
  | stopped (h : Halt)
  | done (daily : TTable)
deriving DecidableEq

/-- The pipeline of lines 28-64, from the deduplicated table and the UI
parameters (pollutant selection and optional explicit start/end dates,
`none` meaning the date-picker defaults `df.index.min()`/`df.index.max()`)
to the warnings emitted and the outcome.

Line 53 evaluates `df.index.min().date()` unconditionally (it is the
date-picker default).  Without a temporal index this is an integer
`RangeIndex` minimum, which has no `.date` — an `AttributeError`.  On an
empty `DatetimeIndex` the minimum is `NaT`, whose `date()` raises — again
a crash before the range filter. -/
def pipeline (t0 : Table) (sel : List String) (sd ed : Option Int) :
    List String × RunResult :=
  let t1 := dedupColumns t0
  match findDateCol t1.cols with
  | none =>
      if sel.isEmpty then
        (["no date column detected"], RunResult.stopped Halt.emptySelection)
      else
        (["no date column detected"], RunResult.crash "AttributeError: .date on RangeIndex min")
  | some c =>
      let t2 := tIndex t1 c
      if sel.isEmpty then ([], RunResult.stopped Halt.emptySelection)
      else
        match t2.rows with
        | [] => ([], RunResult.crash "date() on NaT from empty DatetimeIndex")
        | _ :: _ =>
            let t3 := rangeFilter t2 (sd.getD (spanLo t2)) (ed.getD (spanHi t2))
            if t3.rows.isEmpty then ([], RunResult.stopped Halt.emptyRange)
            else
              match resampleDaily (validityGate t3 sel) with
              | Except.error msg => ([], RunResult.crash msg)
              | Except.ok daily =>
                  ((if daily.rows.length < 7 then ["sparse range"] else []),
                    RunResult.done daily)

/-- The columns over which line 44 classifies pollutant candidates: the
(deduplicated) table's columns, minus the temporal column when one was
promoted to the index. -/
def classifierCols (t0 : Table) : List String :=
  match findDateCol (dedupColumns t0).cols with
  | none => (dedupColumns t0).cols
  | some c => (tIndex (dedupColumns t0) c).cols

/-! ## Concrete tables used as test vectors -/

/-- A CSV with two columns both named "PM2.5" (spec §8 scenario). -/
def wDupT : Table :=
  ⟨["PM2.5", "PM2.5", "no2"],
   [[Cell.num 1, Cell.num 2, Cell.num 3],
    [Cell.num 4, Cell.num 5, Cell.num 6]]⟩

/-- A table with a temporal column, an unparseable date, and two rows with
the same timestamp (to exercise tie order). -/
def wTempT : Table :=
  ⟨["Station", "Date", "pm2.5"],
   [[Cell.str "A", Cell.ts ⟨2, 5⟩, Cell.num 50],
    [Cell.str "B", Cell.ts ⟨0, 0⟩, Cell.num 70],
    [Cell.str "C", Cell.str "bad", Cell.num 60],
    [Cell.str "D", Cell.ts ⟨2, 5⟩, Cell.num 30]]⟩

/-- A time-indexed table with non-numeric tokens in selected columns. -/
def wGateT : TTable :=
  ⟨["Station", "pm2.5", "no2"],
   [(⟨0, 0⟩, [Cell.str "A", Cell.str "x", Cell.num 30]),
    (⟨0, 1⟩, [Cell.str "B", Cell.str "y", Cell.str "z"])]⟩

/-- A time-indexed table whose data days are 0 and 2, with no row on
day 1. -/
def cexGapT : TTable :=
  ⟨["pm2.5"], [(⟨0, 0⟩, [Cell.num 50]), (⟨2, 0⟩, [Cell.num 60])]⟩

/-- A time-indexed table carrying a column ("City") that is neither
temporal nor a pollutant. -/
def cexColsT : TTable :=
  ⟨["City", "pm2.5"], [(⟨0, 0⟩, [Cell.str "D", Cell.num 41])]⟩

/-- A time-indexed table for the mean computation: day 0 has two rows
(one missing no2 value), day 2 has one. -/
def wResT : TTable :=
  ⟨["pm2.5", "no2"],
   [(⟨0, 0⟩, [Cell.num 50, Cell.num 30]),
    (⟨0, 1⟩, [Cell.num 70, Cell.na]),
    (⟨2, 0⟩, [Cell.num 60, Cell.num 40])]⟩

/-- A CSV with no date/time column but with a pollutant column. -/
def cexNoDateT : Table :=
  ⟨["City", "pm2.5"], [[Cell.str "D", Cell.num 41]]⟩

/-- A CSV whose only date value is unparseable: the time-indexed table is
empty. -/
def cexNaTT : Table :=
  ⟨["Date", "pm2.5"], [[Cell.str "bad", Cell.num 5]]⟩

/-- A CSV whose single reading lies on day 10 (outside a [0,5] window). -/
def wRangeT : Table :=
  ⟨["Date", "pm2.5"], [[Cell.ts ⟨10, 0⟩, Cell.num 5]]⟩

/-- A CSV whose only selected value is a non-numeric token: the validity
gate drops every row. -/
def cexSparseT : Table :=
  ⟨["Date", "pm2.5"], [[Cell.ts ⟨0, 0⟩, Cell.str "x"]]⟩

/-- A CSV with one valid reading (a one-day span). -/
def wSparseT : Table :=
  ⟨["Date", "pm2.5"], [[Cell.ts ⟨0, 0⟩, Cell.num 5]]⟩

/-- The validity-gated table of the one-day run on `wSparseT`. -/
def wSparseGate : TTable :=
  validityGate (rangeFilter (tIndex (dedupColumns wSparseT) "Date") 0 0) ["pm2.5"]

/-- A CSV with no pollutant-named column. -/
def wNoCandT : Table :=
  ⟨["Date", "temp"], [[Cell.ts ⟨0, 0⟩, Cell.num 5]]⟩

/-- A CSV whose temporal column name "recorded_time" also contains the
pollutant substring "co". -/
def w10T : Table :=
  ⟨["recorded_time", "pm2.5"], [[Cell.ts ⟨0, 0⟩, Cell.num 5]]⟩

/-- A tie-swapped admissible indexer output for `wTempT`: rows B, D, A —
the two rows with timestamp ⟨2,5⟩ in the opposite of their input order. -/
def cexTieOut : TTable :=
  ⟨["Station", "pm2.5"],
   [(⟨0, 0⟩, [Cell.str "B", Cell.num 70]),
    (⟨2, 5⟩, [Cell.str "D", Cell.num 30]),
    (⟨2, 5⟩, [Cell.str "A", Cell.num 50])]⟩

/-- A gated table still carrying an object-dtype column ("City"). -/
def wObjT : TTable :=
  ⟨["City", "pm2.5"], [(⟨0, 0⟩, [Cell.str "D", Cell.num 41])]⟩

/-! # Theorems -/

/-! ## Loader deduplication (C7) -/

theorem maskKeep_dupKeep_mem (cs : List String) :
    ∀ (seen : List String) (x : String),
      x ∈ maskKeep (dupKeep seen cs) cs ↔ (x ∈ cs ∧ x ∉ seen) := by
  induction cs with
  | nil => intro seen x; simp [dupKeep, maskKeep]
  | cons c cs ih =>
      intro seen x
      cases hb : seen.contains c with
      | true =>
          have hc : c ∈ seen := by simpa using hb
          simp only [dupKeep, hb, Bool.not_true, maskKeep, ih (c :: seen) x,
            List.mem_cons]
          constructor
          · rintro ⟨hx, hns⟩
            push_neg at hns
            exact ⟨Or.inr hx, hns.2⟩
          · rintro ⟨hx, hns⟩
            rcases hx with rfl | hx
            · exact absurd hc hns
            · refine ⟨hx, ?_⟩
              push_neg
              exact ⟨fun h => hns (h ▸ hc), hns⟩
      | false =>
          have hc : c ∉ seen := by simpa using hb
          simp only [dupKeep, hb, Bool.not_false, maskKeep, List.mem_cons,
            ih (c :: seen) x]
          constructor
          · rintro (rfl | ⟨hx, hns⟩)
            · exact ⟨Or.inl rfl, hc⟩
            · push_neg at hns
              exact ⟨Or.inr hx, hns.2⟩
          · rintro ⟨rfl | hx, hns⟩
            · exact Or.inl rfl
            · by_cases hxc : x = c
              · exact Or.inl hxc
              · refine Or.inr ⟨hx, ?_⟩
                push_neg
                exact ⟨hxc, hns⟩

theorem maskKeep_dupKeep_nodup (cs : List String) :
    ∀ seen : List String, (maskKeep (dupKeep seen cs) cs).Nodup := by
  induction cs with
  | nil => intro seen; simp [dupKeep, maskKeep]
  | cons c cs ih =>
      intro seen
      cases hb : seen.contains c with
      | true =>
          simp only [dupKeep]
          rw [hb]
          simpa only [Bool.not_true, maskKeep] using ih (c :: seen)
      | false =>
          simp only [dupKeep]
          rw [hb]
          simp only [Bool.not_false, maskKeep]
          refine List.nodup_cons.mpr ⟨?_, ih (c :: seen)⟩
          rw [maskKeep_dupKeep_mem]
          rintro ⟨-, hns⟩
          exact hns (List.mem_cons_self c seen)

theorem maskKeep_dupKeep_align (cs : List String) :
    ∀ (seen : List String) (r : List Cell) (n : String),
      r.length = cs.length → n ∈ cs → n ∉ seen →
      (maskKeep (dupKeep seen cs) r).getD ((maskKeep (dupKeep seen cs) cs).indexOf n) Cell.na
        = r.getD (cs.indexOf n) Cell.na := by
  induction cs with
  | nil => intro seen r n _ hn _; simp at hn
  | cons c cs ih =>
      intro seen r n hlen hn hns
      cases r with
      | nil => simp at hlen
      | cons x r =>
          have hlen2 : r.length = cs.length := by simpa using hlen
          cases hb : seen.contains c with
          | true =>
              have hc : c ∈ seen := by simpa using hb
              have hnc : n ≠ c := fun h => hns (h ▸ hc)
              have hn2 : n ∈ cs := by
                rcases List.mem_cons.mp hn with rfl | h
                · exact absurd hc hns
                · exact h
              have hns2 : n ∉ c :: seen := by
                simp only [List.mem_cons]
                push_neg
                exact ⟨hnc, hns⟩
              simp only [dupKeep, hb, Bool.not_true, maskKeep]
              rw [List.indexOf_cons_ne _ (Ne.symm hnc), List.getD_cons_succ]
              exact ih (c :: seen) r n hlen2 hn2 hns2
          | false =>
              have hc : c ∉ seen := by simpa using hb
              simp only [dupKeep, hb, Bool.not_false, maskKeep]
              by_cases hnc : n = c
              · subst hnc
                rw [List.indexOf_cons_self, List.indexOf_cons_self]
                simp [List.getD_cons_zero]
              · have hn2 : n ∈ cs := by
                  rcases List.mem_cons.mp hn with rfl | h
                  · exact absurd rfl hnc
                  · exact h
                have hns2 : n ∉ c :: seen := by
                  simp only [List.mem_cons]
                  push_neg
                  exact ⟨hnc, hns⟩
                rw [List.indexOf_cons_ne _ (Ne.symm hnc), List.indexOf_cons_ne _ (Ne.symm hnc),
                  List.getD_cons_succ, List.getD_cons_succ]
                exact ih (c :: seen) r n hlen2 hn2 hns2

theorem cGet_cons (p : String × Nat) (ps : List (String × Nat)) (k : String) :
    cGet (p :: ps) k = if p.1 == k then p.2 else cGet ps k := by
  cases hb : p.1 == k <;> simp [cGet, List.find?, hb]

theorem cGet_cSet_self (m : List (String × Nat)) (k : String) (v : Nat) :
    cGet (cSet m k v) k = v := by
  induction m with
  | nil => simp [cSet, cGet, List.find?]
  | cons p ps ih =>
      cases hb : (p.1 == k) with
      | true => simp [cSet, hb, cGet, List.find?]
      | false => simp [cSet, hb, cGet_cons, ih]

theorem cGet_cSet_ne (m : List (String × Nat)) (k k2 : String) (v : Nat) (h : k2 ≠ k) :
    cGet (cSet m k v) k2 = cGet m k2 := by
  have hkk : (k == k2) = false := by
    simp only [beq_eq_false_iff_ne]
    exact fun hh => h hh.symm
  induction m with
  | nil => simp [cSet, cGet, List.find?, hkk]
  | cons p ps ih =>
      cases hb : (p.1 == k) with
      | true =>
          have hp : p.1 = k := by simpa using hb
          have hpk2 : (p.1 == k2) = false := by
            simp only [beq_eq_false_iff_ne, hp]
            exact fun hh => h hh.symm
          simp [cSet, hb, cGet_cons, hkk, hpk2]
      | false => simp [cSet, hb, cGet_cons, ih]

theorem posLong_le_length (m : List (String × Nat)) (n : Nat) : posLong m n ≤ m.length :=
  List.length_filter_le _ m

theorem posLong_mono (m : List (String × Nat)) {n n2 : Nat} (h : n ≤ n2) :
    posLong m n2 ≤ posLong m n := by
  apply List.Sublist.length_le
  apply List.monotone_filter_right
  intro p hp
  simp only [Bool.and_eq_true, decide_eq_true_eq] at hp ⊢
  exact ⟨hp.1, le_trans h hp.2⟩

theorem posLong_cSet_lt (col : String) (v : Nat) (n2 : Nat) (hlen : col.length < n2) :
    ∀ m : List (String × Nat), 0 < cGet m col →
      posLong (cSet m col v) n2 < posLong m col.length := by
  intro m
  induction m with
  | nil => intro hpos; simp [cGet, List.find?] at hpos
  | cons p ps ih =>
      intro hpos
      rw [cGet_cons] at hpos
      cases hb : (p.1 == col) with
      | true =>
          rw [hb, if_pos rfl] at hpos
          have hp : p.1 = col := by simpa using hb
          have hcset : cSet (p :: ps) col v = (col, v) :: ps := by
            simp [cSet, hb]
          rw [hcset]
          have hL : posLong ((col, v) :: ps) n2 = posLong ps n2 := by
            simp only [posLong, List.filter_cons]
            rw [if_neg ?hcL]
            case hcL =>
              simp only [Bool.and_eq_true, decide_eq_true_eq, not_and]
              intro
              omega
          have hR : posLong (p :: ps) col.length = posLong ps col.length + 1 := by
            simp only [posLong, List.filter_cons]
            rw [if_pos ?hcR]
            · exact List.length_cons _ _
            case hcR =>
              simp only [Bool.and_eq_true, decide_eq_true_eq]
              exact ⟨hpos, hp ▸ le_refl _⟩
          rw [hL, hR]
          have hm := posLong_mono ps (le_of_lt hlen)
          omega
      | false =>
          rw [hb] at hpos
          simp only [Bool.false_eq_true, if_false] at hpos
          have hcset : cSet (p :: ps) col v = p :: cSet ps col v := by
            simp [cSet, hb]
          rw [hcset]
          have htail := ih hpos
          by_cases hc1 : (decide (0 < p.2) && decide (n2 ≤ p.1.length)) = true
          · have hc2 : (decide (0 < p.2) && decide (col.length ≤ p.1.length)) = true := by
              simp only [Bool.and_eq_true, decide_eq_true_eq] at hc1 ⊢
              exact ⟨hc1.1, le_trans (le_of_lt hlen) hc1.2⟩
            have hL : posLong (p :: cSet ps col v) n2 = posLong (cSet ps col v) n2 + 1 := by
              simp only [posLong, List.filter_cons]
              rw [if_pos hc1]
              exact List.length_cons _ _
            have hR : posLong (p :: ps) col.length = posLong ps col.length + 1 := by
              simp only [posLong, List.filter_cons]
              rw [if_pos hc2]
              exact List.length_cons _ _
            rw [hL, hR]
            omega
          · have hL : posLong (p :: cSet ps col v) n2 = posLong (cSet ps col v) n2 := by
              simp only [posLong, List.filter_cons]
              rw [if_neg hc1]
            have hR2 : posLong ps col.length ≤ posLong (p :: ps) col.length := by
              simp only [posLong, List.filter_cons]
              by_cases hc2 : (decide (0 < p.2) && decide (col.length ≤ p.1.length)) = true
              · rw [if_pos hc2, List.length_cons]
                exact Nat.le_succ _
              · rw [if_neg hc2]
            rw [hL]
            omega

theorem resolve_preserves_pos (k : String) :
    ∀ (fuel : Nat) (m : List (String × Nat)) (col : String),
      0 < cGet m k → 0 < cGet (resolve fuel m col).2 k := by
  intro fuel
  induction fuel with
  | zero => intro m col h; exact h
  | succ f ih =>
      intro m col h
      cases hg : cGet m col with
      | zero => simpa [resolve, hg] using h
      | succ c =>
          simp only [resolve, hg]
          apply ih
          by_cases hk : k = col
          · subst hk
            rw [cGet_cSet_self]
            omega
          · rw [cGet_cSet_ne _ _ _ _ hk]
            exact h

theorem resolve_cGet_eq_zero :
    ∀ (fuel : Nat) (m : List (String × Nat)) (col : String),
      posLong m col.length < fuel →
      cGet (resolve fuel m col).2 (resolve fuel m col).1 = 0 := by
  intro fuel
  induction fuel with
  | zero => intro m col h; omega
  | succ f ih =>
      intro m col h
      cases hg : cGet m col with
      | zero => simp [resolve, hg]
      | succ c =>
          simp only [resolve, hg]
          apply ih
          have hdot : (".".length : Nat) = 1 := rfl
          have hlt : col.length < (col ++ "." ++ toString (c + 1)).length := by
            rw [String.length_append, String.length_append, hdot]
            omega
          have hdec := posLong_cSet_lt col (c + 2) ((col ++ "." ++ toString (c + 1)).length)
            hlt m (by rw [hg]; omega)
          omega

theorem startsWithL_iff_exists : ∀ (a b : List Char),
    startsWithL a b = true ↔ ∃ tl, b = a ++ tl := by
  intro a
  induction a with
  | nil => intro b; simp [startsWithL]
  | cons x xs ih =>
      intro b
      cases b with
      | nil => simp [startsWithL]
      | cons y ys =>
          simp only [startsWithL, Bool.and_eq_true, beq_iff_eq]
          rw [ih ys]
          constructor
          · rintro ⟨rfl, tl, rfl⟩
            exact ⟨tl, rfl⟩
          · rintro ⟨tl, hh⟩
            rw [List.cons_append] at hh
            injection hh with h1 h2
            exact ⟨h1.symm, tl, h2⟩

theorem resolve_name_extends :
    ∀ (fuel : Nat) (m : List (String × Nat)) (col : String),
      (resolve fuel m col).1 = col
      ∨ startsWithL (col.toList ++ ['.']) (resolve fuel m col).1.toList = true := by
  intro fuel
  induction fuel with
  | zero => intro m col; exact Or.inl rfl
  | succ f ih =>
      intro m col
      cases hg : cGet m col with
      | zero => simp [resolve, hg]
      | succ c =>
          simp only [resolve, hg]
          right
      -- toList distributes over String append definitionally
          have htl : (col ++ "." ++ toString (c + 1)).toList
              = (col.toList ++ ['.']) ++ (toString (c + 1)).toList := by
            show (col.toList ++ ".".toList) ++ (toString (c + 1)).toList
                = (col.toList ++ ['.']) ++ (toString (c + 1)).toList
            rfl
          rcases ih (cSet m col (c + 2)) (col ++ "." ++ toString (c + 1)) with hh | hh
          · rw [hh, startsWithL_iff_exists, htl]
            exact ⟨(toString (c + 1)).toList, rfl⟩
          · rw [startsWithL_iff_exists] at hh ⊢
            obtain ⟨tl, htl2⟩ := hh
            rw [htl] at htl2
            exact ⟨(toString (c + 1)).toList ++ '.' :: tl, by
              rw [htl2]
              simp [List.append_assoc]⟩

theorem mangleGo_length : ∀ (cols : List String) (m : List (String × Nat)),
    (mangleGo m cols).length = cols.length := by
  intro cols
  induction cols with
  | nil => intro m; rfl
  | cons col rest ih => intro m; simp [mangleGo, ih]

theorem mangleGo_nodup_unused : ∀ (cols : List String) (m : List (String × Nat)),
    (mangleGo m cols).Nodup ∧ ∀ n ∈ mangleGo m cols, cGet m n = 0 := by
  intro cols
  induction cols with
  | nil => intro m; simp [mangleGo]
  | cons col rest ih =>
      intro m
      have hfuel : posLong m col.length < m.length + 1 :=
        Nat.lt_succ_of_le (posLong_le_length m col.length)
      have hz := resolve_cGet_eq_zero (m.length + 1) m col hfuel
      obtain ⟨ihn, ihu⟩ := ih (cSet (resolve (m.length + 1) m col).2
        (resolve (m.length + 1) m col).1
        (cGet (resolve (m.length + 1) m col).2 (resolve (m.length + 1) m col).1 + 1))
      constructor
      · simp only [mangleGo]
        refine List.nodup_cons.mpr ⟨?_, ihn⟩
        intro hmem
        have hu := ihu _ hmem
        rw [cGet_cSet_self] at hu
        omega
      · intro n hn
        simp only [mangleGo, List.mem_cons] at hn
        rcases hn with rfl | hn
        · by_contra hpos0
          have hpos : 0 < cGet m (resolve (m.length + 1) m col).1 :=
            Nat.pos_of_ne_zero hpos0
          have hp2 := resolve_preserves_pos (resolve (m.length + 1) m col).1
            (m.length + 1) m col hpos
          omega
        · have h3 := ihu n hn
          by_contra hpos0
          have hpos : 0 < cGet m n := Nat.pos_of_ne_zero hpos0
          have h2 := resolve_preserves_pos n (m.length + 1) m col hpos
          by_cases hr : n = (resolve (m.length + 1) m col).1
          · rw [hr, cGet_cSet_self] at h3
            omega
          · rw [cGet_cSet_ne _ _ _ _ hr] at h3
            omega

theorem mangleGo_names : ∀ (cols : List String) (m : List (String × Nat)) (i : Nat),
    i < cols.length →
    (mangleGo m cols).getD i "" = cols.getD i ""
    ∨ startsWithL ((cols.getD i "").toList ++ ['.'])
        ((mangleGo m cols).getD i "").toList = true := by
  intro cols
  induction cols with
  | nil => intro m i hi; simp at hi
  | cons col rest ih =>
      intro m i hi
      cases i with
      | zero =>
          simp only [mangleGo, List.getD_cons_zero]
          exact resolve_name_extends (m.length + 1) m col
      | succ j =>
          simp only [mangleGo, List.getD_cons_succ]
          exact ih _ j (by simpa using hi)

theorem mangleGo_nodup_input : ∀ (cols : List String) (m : List (String × Nat)),
    cols.Nodup → (∀ c ∈ cols, cGet m c = 0) → mangleGo m cols = cols := by
  intro cols
  induction cols with
  | nil => intro m _ _; rfl
  | cons col rest ih =>
      intro m hnd hz
      have hcol : cGet m col = 0 := hz col (List.mem_cons_self _ _)
      have hres : resolve (m.length + 1) m col = (col, m) := by
        simp [resolve, hcol]
      simp only [mangleGo, hres]
      congr 1
      apply ih
      · exact (List.nodup_cons.mp hnd).2
      · intro c hc
        have hne : c ≠ col := fun hh => (List.nodup_cons.mp hnd).1 (hh ▸ hc)
        rw [cGet_cSet_ne _ _ _ _ hne]
        exact hz c (List.mem_cons_of_mem _ hc)

theorem dupKeep_nodup_all_true : ∀ (cs seen : List String),
    cs.Nodup → (∀ c ∈ cs, c ∉ seen) → dupKeep seen cs = List.replicate cs.length true := by
  intro cs
  induction cs with
  | nil => intro seen _ _; rfl
  | cons c cs ih =>
      intro seen hnd hdis
      have hc : seen.contains c = false := by
        have := hdis c (List.mem_cons_self _ _)
        simpa using this
      simp only [dupKeep, hc, Bool.not_false, List.length_cons, List.replicate_succ]
      congr 1
      apply ih
      · exact (List.nodup_cons.mp hnd).2
      · intro d hd
        simp only [List.mem_cons]
        push_neg
        refine ⟨fun hh => (List.nodup_cons.mp hnd).1 (hh ▸ hd), ?_⟩
        exact hdis d (List.mem_cons_of_mem _ hd)

theorem maskKeep_replicate_true {α : Type} : ∀ (xs : List α) (n : Nat),
    xs.length ≤ n → maskKeep (List.replicate n true) xs = xs := by
  intro xs
  induction xs with
  | nil =>
      intro n _
      cases n <;> simp [maskKeep, List.replicate]
  | cons x xs ih =>
      intro n hn
      cases n with
      | zero => simp at hn
      | succ k =>
          simp only [List.replicate_succ, maskKeep]
          rw [ih k (by simpa using hn)]

theorem dedupColumns_nodup_noop (t : Table) (hnd : t.cols.Nodup) (hrect : Rect t) :
    dedupColumns t = t := by
  have hmask : dupKeep [] t.cols = List.replicate t.cols.length true :=
    dupKeep_nodup_all_true t.cols [] hnd (by simp)
  have h1 : maskKeep (dupKeep [] t.cols) t.cols = t.cols := by
    rw [hmask]
    exact maskKeep_replicate_true _ _ (le_refl _)
  have h2 : t.rows.map (maskKeep (dupKeep [] t.cols)) = t.rows := by
    rw [hmask]
    calc t.rows.map (maskKeep (List.replicate t.cols.length true))
        = t.rows.map id :=
          List.map_congr_left (fun r hr => maskKeep_replicate_true r _ (le_of_eq (hrect r hr)))
      _ = t.rows := List.map_id _
  show (⟨maskKeep (dupKeep [] t.cols) t.cols, t.rows.map (maskKeep (dupKeep [] t.cols))⟩ : Table) = t
  rw [h1, h2]

/-- C7 counterexample: a CSV whose header holds two columns named
"PM2.5".  The claim says the loader keeps exactly one column per
duplicated name and discards the later occurrence without renaming; the
real loader (`pd.read_csv` + line 29) renames the second occurrence to
"PM2.5.1" and retains it together with its data — nothing is discarded. -/
theorem loader_dedup_counterexample :
    loadTable wDupT = ⟨["PM2.5", "PM2.5.1", "no2"], wDupT.rows⟩
    ∧ (loadTable wDupT).cols.length = 3
    ∧ "PM2.5.1" ∈ (loadTable wDupT).cols
    ∧ (loadTable wDupT).col "PM2.5.1" = [Cell.num 2, Cell.num 5] := by
  with_unfolding_all decide

/-- C7 amended — Table Loader: the loader never discards a column.
`pd.read_csv` renames each later occurrence of an already-used header
name (appending a dot-suffix, iterating on collision) so the delivered
names are unique; line 29's duplicate-drop therefore finds nothing to
remove and the table passes through with all its data.  Each column keeps
its original name or gets that name extended by a dot-suffix, and a CSV
whose header names are already unique loads completely unchanged. -/
theorem loader_mangle_amended (t : Table) (hrect : Rect t) :
    (mangle t.cols).length = t.cols.length
    ∧ (mangle t.cols).Nodup
    ∧ loadTable t = ⟨mangle t.cols, t.rows⟩
    ∧ (∀ i : Nat, i < t.cols.length →
        (mangle t.cols).getD i "" = t.cols.getD i ""
        ∨ startsWithL ((t.cols.getD i "").toList ++ ['.'])
            ((mangle t.cols).getD i "").toList = true)
    ∧ (t.cols.Nodup → mangle t.cols = t.cols) := by
  have hlen : (mangle t.cols).length = t.cols.length := mangleGo_length t.cols []
  have hnd : (mangle t.cols).Nodup := (mangleGo_nodup_unused t.cols []).1
  refine ⟨hlen, hnd, ?_, ?_, ?_⟩
  · unfold loadTable
    apply dedupColumns_nodup_noop
    · exact hnd
    · intro r hr
      show r.length = (mangle t.cols).length
      rw [hlen]
      exact hrect r hr
  · intro i hi
    exact mangleGo_names t.cols [] i hi
  · intro hndin
    exact mangleGo_nodup_input t.cols [] hndin (fun c _ => rfl)

/-- Witness for C7 (amended) at the duplicated-header table `wDupT`:
header "PM2.5", "PM2.5", "no2" loads as "PM2.5", "PM2.5.1", "no2" with
every row intact. -/
theorem loader_mangle_amended_witness :
    Rect wDupT
    ∧ mangle wDupT.cols = ["PM2.5", "PM2.5.1", "no2"]
    ∧ ((mangle wDupT.cols).length = wDupT.cols.length
        ∧ (mangle wDupT.cols).Nodup
        ∧ loadTable wDupT = ⟨mangle wDupT.cols, wDupT.rows⟩
        ∧ (∀ i : Nat, i < wDupT.cols.length →
            (mangle wDupT.cols).getD i "" = wDupT.cols.getD i ""
            ∨ startsWithL ((wDupT.cols.getD i "").toList ++ ['.'])
                ((mangle wDupT.cols).getD i "").toList = true)
        ∧ (wDupT.cols.Nodup → mangle wDupT.cols = wDupT.cols)) :=
  ⟨by with_unfolding_all decide, by with_unfolding_all decide,
    loader_mangle_amended wDupT (by with_unfolding_all decide)⟩

/-! ## Temporal Indexer (C3, C10) -/

theorem find?_eq_some_split {p : String → Bool} :
    ∀ {l : List String} {c : String}, l.find? p = some c →
      ∃ pre post, l = pre ++ c :: post ∧ p c = true ∧ ∀ d ∈ pre, p d = false := by
  intro l
  induction l with
  | nil => intro c h; simp [List.find?] at h
  | cons a l ih =>
      intro c h
      cases hp : p a with
      | true =>
          rw [List.find?_cons_of_pos _ hp] at h
          cases h
          exact ⟨[], l, rfl, hp, by simp⟩
      | false =>
          rw [List.find?_cons_of_neg _ (by simp [hp])] at h
          obtain ⟨pre, post, rfl, hc, hpre⟩ := ih h
          refine ⟨a :: pre, post, rfl, hc, ?_⟩
          intro d hd
          rcases List.mem_cons.mp hd with rfl | hd
          · exact hp
          · exact hpre d hd

/-- C3 counterexample: the claim guarantees that rows of equal timestamp
keep their original relative order.  Line 39 sorts with pandas' default
`kind='quicksort'`, which the library documents as not stable, so every
timestamp-sorted permutation of the surviving rows is an admissible
outcome of the call.  `cexTieOut` is such an admissible outcome for
`wTempT` in which the two rows sharing timestamp ⟨2,5⟩ appear in the
opposite of their input order — falsifying the claimed tie-stability. -/
theorem temporal_indexer_stability_counterexample :
    findDateCol wTempT.cols = some "Date"
    ∧ tIndexAdmissible wTempT "Date" cexTieOut
    ∧ cexTieOut.rows.filter (fun p => decide (p.1 = ⟨2, 5⟩))
        ≠ (validRows wTempT (wTempT.cols.indexOf "Date")).filter
            (fun p => decide (p.1 = ⟨2, 5⟩)) := by
  refine ⟨rfl, by with_unfolding_all decide, by with_unfolding_all decide⟩

/-- C3 amended — Temporal Indexer: whenever the name heuristic finds a
column, it is the left-most one whose lowercased name contains "date" or
"time" (first conjunct), and the indexer's result is an admissible
`sort_values` outcome: exactly the rows whose value in that column parses
as a timestamp (the permutation — no invalid row survives, no valid row
is lost), in non-decreasing timestamp order.  Nothing is guaranteed about
the relative order of rows with equal timestamps (the default quicksort
is documented as unstable); the executable model resolves those ties one
admissible way. -/
theorem temporal_indexer_amended (t : Table) (c : String)
    (h : findDateCol t.cols = some c) :
    (∃ pre post, t.cols = pre ++ c :: post ∧ isTemporalName c = true
        ∧ ∀ d ∈ pre, isTemporalName d = false)
    ∧ tIndexAdmissible t c (tIndex t c) := by
  refine ⟨find?_eq_some_split h, ?_⟩
  unfold tIndexAdmissible sortValuesAdmissible
  exact ⟨rfl, List.perm_insertionSort _ _, List.sorted_insertionSort _ _⟩

/-- Witness for C3 (amended): on `wTempT` the "Date" column is detected,
the row with the unparseable date is gone, and the model's output is one
admissible sorted order. -/
theorem temporal_indexer_amended_witness :
    findDateCol wTempT.cols = some "Date"
    ∧ (tIndex wTempT "Date").rows =
        [(⟨0, 0⟩, [Cell.str "B", Cell.num 70]),
         (⟨2, 5⟩, [Cell.str "A", Cell.num 50]),
         (⟨2, 5⟩, [Cell.str "D", Cell.num 30])]
    ∧ ((∃ pre post, wTempT.cols = pre ++ "Date" :: post ∧ isTemporalName "Date" = true
          ∧ ∀ d ∈ pre, isTemporalName d = false)
        ∧ tIndexAdmissible wTempT "Date" (tIndex wTempT "Date")) :=
  ⟨rfl, by with_unfolding_all decide, temporal_indexer_amended wTempT "Date" rfl⟩

/-- C10 — the detected temporal column is promoted to the index before
pollutant classification, so it is never a pollutant candidate, whatever
its name contains. -/
theorem temporal_key_not_candidate (t0 : Table) (c : String)
    (h : findDateCol (dedupColumns t0).cols = some c) :
    c ∉ pollutantCols (classifierCols t0) := by
  intro hc
  have hcols : classifierCols t0 = ((dedupColumns t0).cols).erase c := by
    unfold classifierCols
    rw [h]
    rfl
  rw [hcols] at hc
  have hmem : c ∈ ((dedupColumns t0).cols).erase c := List.mem_of_mem_filter hc
  have hnd : ((dedupColumns t0).cols).Nodup := maskKeep_dupKeep_nodup t0.cols []
  exact ((List.Nodup.mem_erase_iff hnd).mp hmem).1 rfl

/-- Witness for C10: the column "recorded_time" is temporal and its name
contains the pollutant substring "co", yet it is not a candidate. -/
theorem temporal_key_not_candidate_witness :
    findDateCol (dedupColumns w10T).cols = some "recorded_time"
    ∧ isPollutantName "recorded_time" = true
    ∧ pollutantCols (classifierCols w10T) = ["pm2.5"]
    ∧ "recorded_time" ∉ pollutantCols (classifierCols w10T) :=
  ⟨rfl, rfl, by with_unfolding_all decide,
    temporal_key_not_candidate w10T "recorded_time" rfl⟩

/-! ## Range Filter (C2) -/

/-- C2 amended — Range & Selection Filter: line 55 keeps exactly the rows
whose date component lies in `[sd, ed]` inclusive (in their original
order), but its columns are NOT restricted to the selection: every source
column survives (the pollutant selection only takes effect at each
downstream use). -/
theorem range_filter_amended (t : TTable) (sd ed : Int) :
    (rangeFilter t sd ed).cols = t.cols
    ∧ (rangeFilter t sd ed).rows.Sublist t.rows
    ∧ ∀ p : Ts × List Cell,
        p ∈ (rangeFilter t sd ed).rows ↔ (p ∈ t.rows ∧ sd ≤ p.1.day ∧ p.1.day ≤ ed) := by
  refine ⟨rfl, List.filter_sublist _, fun p => ?_⟩
  simp [rangeFilter, List.mem_filter]

/-- C2 counterexample: with selection `["pm2.5"]` the claim says only the
temporal key and "pm2.5" survive the filter; but the output of line 55
still carries the unselected, non-temporal column "City". -/
theorem range_filter_columns_counterexample :
    "City" ∈ (rangeFilter cexColsT 0 5).cols
    ∧ "City" ∉ ["pm2.5"]
    ∧ isTemporalName "City" = false
    ∧ (rangeFilter cexColsT 0 5).rows = cexColsT.rows := by
  with_unfolding_all decide

/-! ## Numeric Coercion & Validity Gate (C4) -/

theorem coerceRow_getD (sel : List String) :
    ∀ (cols : List String) (r : List Cell) (j : Nat),
      r.length = cols.length → j < cols.length →
      (coerceRow cols sel r).getD j Cell.na =
        (if sel.contains (cols.getD j "") then toNumeric (r.getD j Cell.na)
         else r.getD j Cell.na) := by
  intro cols
  induction cols with
  | nil => intro r j _ hj; simp at hj
  | cons c cols ih =>
      intro r j hlen hj
      cases r with
      | nil => simp at hlen
      | cons x r =>
          have hlen2 : r.length = cols.length := by simpa using hlen
          cases j with
          | zero =>
              simp [coerceRow, List.zip_cons_cons, List.getD_cons_zero]
          | succ j =>
              have hj2 : j < cols.length := by simpa using hj
              have := ih r j hlen2 hj2
              simpa [coerceRow, List.zip_cons_cons, List.getD_cons_succ] using this

/-- C4 — Numeric Coercion & Validity Gate: after line 60, a selected cell
is the numeric coercion of the original (a non-numeric token becomes
missing — not zero and not an error — and a number survives unchanged),
while non-selected cells are untouched; line 61 then keeps exactly the
rows with at least one non-missing selected cell. -/
theorem coercion_gate_spec (t : TTable) (sel : List String) :
    (∀ p ∈ t.rows, ∀ j : Nat, p.2.length = t.cols.length → j < t.cols.length →
        (sel.contains (t.cols.getD j "") = false →
            (coerceRow t.cols sel p.2).getD j Cell.na = p.2.getD j Cell.na)
        ∧ (sel.contains (t.cols.getD j "") = true →
            (coerceRow t.cols sel p.2).getD j Cell.na = toNumeric (p.2.getD j Cell.na)))
    ∧ (∀ s : String, toNumeric (Cell.str s) = Cell.na)
    ∧ (∀ q : ℚ, toNumeric (Cell.num q) = Cell.num q)
    ∧ (validityGate t sel).cols = t.cols
    ∧ (∀ p : Ts × List Cell, p ∈ (validityGate t sel).rows ↔
        ∃ q ∈ t.rows, p = (q.1, coerceRow t.cols sel q.2)
          ∧ ∃ cell ∈ selCells t.cols sel (coerceRow t.cols sel q.2), isNA cell = false) := by
  refine ⟨?_, fun s => rfl, fun q => rfl, rfl, ?_⟩
  · intro p _ j hlen hj
    constructor
    · intro hsel
      rw [coerceRow_getD sel t.cols p.2 j hlen hj, hsel]
      simp
    · intro hsel
      rw [coerceRow_getD sel t.cols p.2 j hlen hj, hsel]
      simp
  · intro p
    simp only [validityGate, List.mem_filter, List.mem_map]
    constructor
    · rintro ⟨⟨q, hq, rfl⟩, hpred⟩
      refine ⟨q, hq, rfl, ?_⟩
      simpa [List.all_eq_true] using hpred
    · rintro ⟨q, hq, rfl, cell, hcell, hna⟩
      refine ⟨⟨q, hq, rfl⟩, ?_⟩
      simp only [Bool.not_eq_true', List.all_eq_false]
      exact ⟨cell, hcell, by simp [hna]⟩

/-- Witness for C4: in `wGateT` with both pollutants selected, the token
"x" becomes missing (keeping the row, whose no2 value 30 is valid), the
all-invalid second row is dropped, and the unselected "Station" cell is
unaltered. -/
theorem coercion_gate_spec_witness :
    (validityGate wGateT ["pm2.5", "no2"]).rows =
        [(⟨0, 0⟩, [Cell.str "A", Cell.na, Cell.num 30])]
    ∧ ((∀ p ∈ wGateT.rows, ∀ j : Nat, p.2.length = wGateT.cols.length → j < wGateT.cols.length →
          ((["pm2.5", "no2"] : List String).contains (wGateT.cols.getD j "") = false →
              (coerceRow wGateT.cols ["pm2.5", "no2"] p.2).getD j Cell.na = p.2.getD j Cell.na)
          ∧ ((["pm2.5", "no2"] : List String).contains (wGateT.cols.getD j "") = true →
              (coerceRow wGateT.cols ["pm2.5", "no2"] p.2).getD j Cell.na
                = toNumeric (p.2.getD j Cell.na)))
        ∧ (∀ s : String, toNumeric (Cell.str s) = Cell.na)
        ∧ (∀ q : ℚ, toNumeric (Cell.num q) = Cell.num q)
        ∧ (validityGate wGateT ["pm2.5", "no2"]).cols = wGateT.cols
        ∧ (∀ p : Ts × List Cell, p ∈ (validityGate wGateT ["pm2.5", "no2"]).rows ↔
            ∃ q ∈ wGateT.rows, p = (q.1, coerceRow wGateT.cols ["pm2.5", "no2"] q.2)
              ∧ ∃ cell ∈ selCells wGateT.cols ["pm2.5", "no2"]
                  (coerceRow wGateT.cols ["pm2.5", "no2"] q.2), isNA cell = false)) :=
  ⟨by with_unfolding_all decide, coercion_gate_spec wGateT ["pm2.5", "no2"]⟩

/-! ## Daily Resampler (C1) -/

theorem foldl_min_le_init (l : List Int) : ∀ d : Int, l.foldl min d ≤ d := by
  induction l with
  | nil => intro d; exact le_refl d
  | cons x l ih =>
      intro d
      calc (x :: l).foldl min d = l.foldl min (min d x) := rfl
        _ ≤ min d x := ih (min d x)
        _ ≤ d := min_le_left d x

theorem le_foldl_max_init (l : List Int) : ∀ d : Int, d ≤ l.foldl max d := by
  induction l with
  | nil => intro d; exact le_refl d
  | cons x l ih =>
      intro d
      calc d ≤ max d x := le_max_left d x
        _ ≤ l.foldl max (max d x) := ih (max d x)
        _ = (x :: l).foldl max d := rfl

theorem spanLo_le_spanHi (t : TTable) (h : t.rows ≠ []) : spanLo t ≤ spanHi t := by
  obtain ⟨cols, rows⟩ := t
  cases rows with
  | nil => exact absurd rfl h
  | cons p ps =>
      show (spanLo ⟨cols, p :: ps⟩) ≤ (spanHi ⟨cols, p :: ps⟩)
      have hlo : spanLo ⟨cols, p :: ps⟩ = (ps.map (fun q => q.1.day)).foldl min p.1.day := rfl
      have hhi : spanHi ⟨cols, p :: ps⟩ = (ps.map (fun q => q.1.day)).foldl max p.1.day := rfl
      rw [hlo, hhi]
      calc (ps.map (fun q => q.1.day)).foldl min p.1.day ≤ p.1.day :=
            foldl_min_le_init _ _
        _ ≤ (ps.map (fun q => q.1.day)).foldl max p.1.day := le_foldl_max_init _ _

theorem getD_map_range {α : Type} (f : Nat → α) (n j : Nat) (dflt : α) (hj : j < n) :
    ((List.range n).map f).getD j dflt = f j := by
  rw [List.getD_eq_getElem?_getD, List.getElem?_map, List.getElem?_range hj]
  rfl

theorem dayRange_ne_nil {lo hi : Int} (h : lo ≤ hi) : dayRange lo hi ≠ [] := by
  have hlen : (dayRange lo hi).length = (hi - lo + 1).toNat := by
    rw [dayRange, List.length_map, List.length_range]
  have hpos : 0 < (hi - lo + 1).toNat := by omega
  intro hnil
  rw [hnil] at hlen
  simp at hlen
  omega

theorem resampleDaily_ok_rows_nil_iff (t : TTable) (out : TTable)
    (h : resampleDaily t = Except.ok out) : (out.rows = [] ↔ t.rows = []) := by
  by_cases hnum : (List.range t.cols.length).all (fun j => numericCol t j) = true
  · obtain ⟨cols, rows⟩ := t
    cases rows with
    | nil =>
        unfold resampleDaily at h
        rw [if_pos hnum] at h
        injection h with h2
        rw [← h2]
    | cons p ps =>
        unfold resampleDaily at h
        rw [if_pos hnum] at h
        injection h with h2
        subst h2
        have hle := spanLo_le_spanHi ⟨cols, p :: ps⟩ (by simp)
        constructor
        · intro hdaily
          exact absurd (List.map_eq_nil_iff.mp hdaily) (dayRange_ne_nil hle)
        · intro hh
          simp at hh
  · unfold resampleDaily at h
    rw [if_neg hnum] at h
    simp at h

/-- C1 amended — Daily Resampler: line 62 aggregates only a fully numeric
frame.  When some column still holds non-numeric data, pandas ≥ 2.0
raises a `TypeError` (pandas ≤ 1.x instead dropped such columns).  On an
all-numeric, non-empty gated table, the output has exactly one row per
calendar day from the first to the last day of the input span (days with
zero contributing rows are NOT absent: they get a row too), each row is
indexed at midnight of its day, and each cell is the arithmetic mean of
that day's valid (non-missing) values in its column, or missing when the
day has no such value (never zero-filled). -/
theorem daily_resampler_amended (t : TTable) (h : t.rows ≠ []) :
    ((List.range t.cols.length).all (fun j => numericCol t j) = false →
        resampleDaily t =
          Except.error "TypeError: agg function failed [how->mean, dtype->object]")
    ∧ ((List.range t.cols.length).all (fun j => numericCol t j) = true →
        ∃ out : TTable, resampleDaily t = Except.ok out
          ∧ out.cols = t.cols
          ∧ out.rows.map (fun p => p.1.day) = dayRange (spanLo t) (spanHi t)
          ∧ spanLo t ≤ spanHi t
          ∧ ∀ p ∈ out.rows, p.1.sec = 0 ∧
              ∀ j : Nat, j < t.cols.length →
                (numsOn t p.1.day j = [] → p.2.getD j Cell.na = Cell.na)
                ∧ (numsOn t p.1.day j ≠ [] →
                    p.2.getD j Cell.na =
                      Cell.num ((numsOn t p.1.day j).sum
                        / ((numsOn t p.1.day j).length : ℚ)))) := by
  constructor
  · intro hnum
    unfold resampleDaily
    rw [if_neg (by simp [hnum])]
  · intro hnum
    obtain ⟨cols, rows⟩ := t
    cases rows with
    | nil => exact absurd rfl h
    | cons q qs =>
        refine ⟨⟨cols, (dayRange (spanLo ⟨cols, q :: qs⟩) (spanHi ⟨cols, q :: qs⟩)).map
          (fun d => (⟨d, 0⟩, (List.range cols.length).map (meanCell ⟨cols, q :: qs⟩ d)))⟩,
          ?_, rfl, ?_, spanLo_le_spanHi _ h, ?_⟩
        · unfold resampleDaily
          rw [if_pos hnum]
        · show List.map _ _ = _
          rw [List.map_map]
          have hcomp : ((fun p : Ts × List Cell => p.1.day) ∘ fun d =>
              ((⟨d, 0⟩ : Ts), (List.range cols.length).map (meanCell ⟨cols, q :: qs⟩ d)))
              = fun d : Int => d := by
            funext d
            rfl
          rw [hcomp]
          exact List.map_id _
        · intro p hp
          simp only [List.mem_map] at hp
          obtain ⟨d, _, rfl⟩ := hp
          refine ⟨rfl, fun j hj => ?_⟩
          rw [getD_map_range _ _ _ _ (by simpa using hj)]
          constructor
          · intro hnil
            simp only [meanCell]
            rw [hnil]
          · intro hne
            simp only [meanCell]
            cases hn : numsOn ⟨cols, q :: qs⟩ d j with
            | nil => exact absurd hn hne
            | cons a as => rfl

/-- C1 counterexample: `cexGapT` has contributing rows only on days 0 and
2, yet the resampled output contains a synthesized row for day 1 (its
value missing) — the claim that days with zero contributing rows are
absent from the output is false. -/
theorem daily_resampler_gap_counterexample :
    (1 : Int) ∉ daysOf cexGapT
    ∧ resampleDaily cexGapT =
        Except.ok ⟨["pm2.5"],
          [(⟨0, 0⟩, [Cell.num 50]), (⟨1, 0⟩, [Cell.na]), (⟨2, 0⟩, [Cell.num 60])]⟩ := by
  with_unfolding_all decide

/-- Witness for C1 (amended) on the all-numeric `wResT`: days 0..2 all
appear, the day-0 mean of pm2.5 is (50+70)/2 = 60 while its no2 mean uses
only the one valid value 30, and the empty day 1 is all-missing; the
object-dtype table `wObjT` instead raises. -/
theorem daily_resampler_amended_witness :
    wResT.rows ≠ []
    ∧ resampleDaily wResT = Except.ok ⟨["pm2.5", "no2"],
        [(⟨0, 0⟩, [Cell.num 60, Cell.num 30]),
         (⟨1, 0⟩, [Cell.na, Cell.na]),
         (⟨2, 0⟩, [Cell.num 60, Cell.num 40])]⟩
    ∧ resampleDaily wObjT =
        Except.error "TypeError: agg function failed [how->mean, dtype->object]"
    ∧ (((List.range wResT.cols.length).all (fun j => numericCol wResT j) = false →
          resampleDaily wResT =
            Except.error "TypeError: agg function failed [how->mean, dtype->object]")
        ∧ ((List.range wResT.cols.length).all (fun j => numericCol wResT j) = true →
            ∃ out : TTable, resampleDaily wResT = Except.ok out
              ∧ out.cols = wResT.cols
              ∧ out.rows.map (fun p => p.1.day) = dayRange (spanLo wResT) (spanHi wResT)
              ∧ spanLo wResT ≤ spanHi wResT
              ∧ ∀ p ∈ out.rows, p.1.sec = 0 ∧
                  ∀ j : Nat, j < wResT.cols.length →
                    (numsOn wResT p.1.day j = [] → p.2.getD j Cell.na = Cell.na)
                    ∧ (numsOn wResT p.1.day j ≠ [] →
                        p.2.getD j Cell.na =
                          Cell.num ((numsOn wResT p.1.day j).sum
                            / ((numsOn wResT p.1.day j).length : ℚ))))) :=
  ⟨by with_unfolding_all decide, by with_unfolding_all decide, by with_unfolding_all decide,
    daily_resampler_amended wResT (by with_unfolding_all decide)⟩

/-! ## Whole-run theorems (C5, C6, C8, C9) -/

theorem pipeline_timed_reached (t0 : Table) (c : String) (sel : List String) (s e : Int)
    (hc : findDateCol (dedupColumns t0).cols = some c)
    (hsel : sel ≠ [])
    (hne : (tIndex (dedupColumns t0) c).rows ≠ []) :
    pipeline t0 sel (some s) (some e) =
      if (rangeFilter (tIndex (dedupColumns t0) c) s e).rows.isEmpty then
        ([], RunResult.stopped Halt.emptyRange)
      else
        match resampleDaily (validityGate
            (rangeFilter (tIndex (dedupColumns t0) c) s e) sel) with
        | Except.error msg => ([], RunResult.crash msg)
        | Except.ok daily =>
            ((if daily.rows.length < 7 then ["sparse range"] else []),
              RunResult.done daily) := by
  have hselF : sel.isEmpty = false := by
    cases sel
    · exact absurd rfl hsel
    · rfl
  simp only [pipeline, hc, hselF, Bool.false_eq_true, if_false, Option.getD_some]
  cases hrows : (tIndex (dedupColumns t0) c).rows with
  | nil => exact absurd hrows hne
  | cons a l => rfl

/-- C5 evidence — degraded temporal mode: with no date/time column the run
emits the degraded-mode warning and leaves the table untouched, but then
crashes on line 53: the date-picker default `df.index.min().date()` is
taken on a plain integer `RangeIndex`, whose minimum has no `.date`
attribute, so the run ends in an uncaught `AttributeError` instead of
proceeding best-effort. -/
theorem degraded_mode_crash_eval :
    findDateCol (dedupColumns cexNoDateT).cols = none
    ∧ dedupColumns cexNoDateT = cexNoDateT
    ∧ pipeline cexNoDateT ["pm2.5"] none none =
        (["no date column detected"],
          RunResult.crash "AttributeError: .date on RangeIndex min") := by
  with_unfolding_all decide

/-- C6 amended — empty-range halt: provided the time-indexed table has at
least one surviving row, a date window containing none of the rows makes
the run stop right after the range filter with the empty-range error and
no warnings; no later stage (coercion, resampling, statistics, rendering)
is reached — the result is `stopped`, not `done`.  (When the time-indexed
table is empty, the run instead dies earlier while computing the
date-picker defaults from an empty index; see the counterexample.) -/
theorem empty_range_halt_amended (t0 : Table) (c : String) (sel : List String) (s e : Int)
    (hc : findDateCol (dedupColumns t0).cols = some c)
    (hsel : sel ≠ [])
    (hne : (tIndex (dedupColumns t0) c).rows ≠ [])
    (hempty : (rangeFilter (tIndex (dedupColumns t0) c) s e).rows = []) :
    pipeline t0 sel (some s) (some e) = ([], RunResult.stopped Halt.emptyRange) := by
  rw [pipeline_timed_reached t0 c sel s e hc hsel hne, hempty]
  rfl

/-- C6 counterexample: on `cexNaTT` every date value fails to parse, so
the time-indexed table is empty and the interval [0,5] trivially contains
no row's date; the claim then demands a clean halt right after the range
filter, but the run crashes before the filter, computing the date-picker
default from the empty index. -/
theorem empty_range_empty_table_counterexample :
    (tIndex (dedupColumns cexNaTT) "Date").rows = []
    ∧ pipeline cexNaTT ["pm2.5"] (some 0) (some 5) =
        ([], RunResult.crash "date() on NaT from empty DatetimeIndex")
    ∧ (pipeline cexNaTT ["pm2.5"] (some 0) (some 5)).2 ≠ RunResult.stopped Halt.emptyRange := by
  with_unfolding_all decide

/-- Witness for C6 (amended): one valid reading on day 10, window [0,5]. -/
theorem empty_range_halt_amended_witness :
    (findDateCol (dedupColumns wRangeT).cols = some "Date"
      ∧ (["pm2.5"] : List String) ≠ []
      ∧ (tIndex (dedupColumns wRangeT) "Date").rows ≠ []
      ∧ (rangeFilter (tIndex (dedupColumns wRangeT) "Date") 0 5).rows = [])
    ∧ pipeline wRangeT ["pm2.5"] (some 0) (some 5) = ([], RunResult.stopped Halt.emptyRange) :=
  ⟨⟨rfl, by with_unfolding_all decide, by with_unfolding_all decide,
      by with_unfolding_all decide⟩,
    empty_range_halt_amended wRangeT "Date" ["pm2.5"] 0 5 rfl
      (by with_unfolding_all decide) (by with_unfolding_all decide)
      (by with_unfolding_all decide)⟩

/-- C8 — no-candidates halt: when line 44 classifies no column as a
pollutant candidate, the UI multiselect (whose options are the candidate
list) can only produce the empty selection, and the run stops at the
selection check of lines 50-52 — before the range filter and every later
stage. -/
theorem no_candidates_halt_spec (t0 : Table) (sel : List String) (sd ed : Option Int)
    (hsub : sel ⊆ pollutantCols (classifierCols t0))
    (hcand : pollutantCols (classifierCols t0) = []) :
    (pipeline t0 sel sd ed).2 = RunResult.stopped Halt.emptySelection := by
  have hsel : sel = [] := List.subset_nil.mp (hcand ▸ hsub)
  subst hsel
  cases hfd : findDateCol (dedupColumns t0).cols with
  | none => simp [pipeline, hfd]
  | some c => simp [pipeline, hfd]

/-- Witness for C8: `wNoCandT` has no pollutant-named column, so the
candidate list is empty and the run stops at the selection stage. -/
theorem no_candidates_halt_spec_witness :
    pollutantCols (classifierCols wNoCandT) = []
    ∧ (pipeline wNoCandT [] none none).2 = RunResult.stopped Halt.emptySelection :=
  ⟨by with_unfolding_all decide,
    no_candidates_halt_spec wNoCandT [] none none (by simp)
      (by with_unfolding_all decide)⟩

/-- C9 amended — sparse-range warning: consider any run that passes the
empty-range check.  When the gated table still carries a non-numeric
column, line 62 raises before the warning is ever reached (pandas ≥ 2.0;
≤ 1.x dropped such columns) and the run crashes.  When the gated table is
all-numeric, the daily table is produced, the sparse warning is emitted
exactly when it has fewer than 7 rows (each row one distinct day), the
run continues to `done`, and the daily table is empty precisely when the
validity gate dropped every row — so it is non-empty whenever some
filtered row keeps a valid selected value, but it CAN be empty, in which
case the warning fires and an empty table is handed downstream. -/
theorem sparse_warning_amended (t0 : Table) (c : String) (sel : List String) (s e : Int)
    (hc : findDateCol (dedupColumns t0).cols = some c)
    (hsel : sel ≠ [])
    (hne : (tIndex (dedupColumns t0) c).rows ≠ [])
    (hfilt : (rangeFilter (tIndex (dedupColumns t0) c) s e).rows ≠ []) :
    ((List.range (validityGate (rangeFilter (tIndex (dedupColumns t0) c) s e) sel).cols.length).all
        (fun j => numericCol (validityGate (rangeFilter (tIndex (dedupColumns t0) c) s e) sel) j)
          = false →
      pipeline t0 sel (some s) (some e) =
        ([], RunResult.crash "TypeError: agg function failed [how->mean, dtype->object]"))
    ∧ (∀ daily : TTable,
        resampleDaily (validityGate (rangeFilter (tIndex (dedupColumns t0) c) s e) sel)
            = Except.ok daily →
        ("sparse range" ∈ (pipeline t0 sel (some s) (some e)).1 ↔ daily.rows.length < 7)
        ∧ (pipeline t0 sel (some s) (some e)).2 = RunResult.done daily
        ∧ (daily.rows = [] ↔
            (validityGate (rangeFilter (tIndex (dedupColumns t0) c) s e) sel).rows = [])) := by
  have hred := pipeline_timed_reached t0 c sel s e hc hsel hne
  have hemptyF : (rangeFilter (tIndex (dedupColumns t0) c) s e).rows.isEmpty = false := by
    cases hr : (rangeFilter (tIndex (dedupColumns t0) c) s e).rows
    · exact absurd hr hfilt
    · rfl
  rw [hemptyF] at hred
  simp only [Bool.false_eq_true, if_false] at hred
  constructor
  · intro hnum
    have herr : resampleDaily (validityGate (rangeFilter (tIndex (dedupColumns t0) c) s e) sel)
        = Except.error "TypeError: agg function failed [how->mean, dtype->object]" := by
      unfold resampleDaily
      rw [if_neg (by simp [hnum])]
    rw [herr] at hred
    exact hred
  · intro daily hok
    rw [hok] at hred
    refine ⟨?_, by rw [hred], resampleDaily_ok_rows_nil_iff _ _ hok⟩
    rw [hred]
    by_cases hlen : daily.rows.length < 7
    · simp [hlen]
    · simp [hlen]

/-- C9 counterexample: in `cexSparseT` the only selected value is the
non-numeric token "x", so the validity gate drops every row: the warning
fires (0 < 7 days) and the run continues, but the daily table it
produces is EMPTY — the claim's "valid (non-empty) DailyTable" fails. -/
theorem sparse_warning_empty_daily_counterexample :
    (pipeline cexSparseT ["pm2.5"] none none).1 = ["sparse range"]
    ∧ (pipeline cexSparseT ["pm2.5"] none none).2 =
        RunResult.done ⟨["pm2.5"], []⟩
    ∧ (⟨["pm2.5"], []⟩ : TTable).rows = [] := by
  with_unfolding_all decide

/-- Witness for C9 (amended): a one-day, all-numeric run — the daily
table is the non-empty one-row table, and the warning fires (1 < 7). -/
theorem sparse_warning_amended_witness :
    (findDateCol (dedupColumns wSparseT).cols = some "Date"
      ∧ (["pm2.5"] : List String) ≠ []
      ∧ (tIndex (dedupColumns wSparseT) "Date").rows ≠ []
      ∧ (rangeFilter (tIndex (dedupColumns wSparseT) "Date") 0 0).rows ≠ [])
    ∧ resampleDaily wSparseGate = Except.ok ⟨["pm2.5"], [(⟨0, 0⟩, [Cell.num 5])]⟩
    ∧ (((List.range wSparseGate.cols.length).all
            (fun j => numericCol wSparseGate j) = false →
          pipeline wSparseT ["pm2.5"] (some 0) (some 0) =
            ([], RunResult.crash "TypeError: agg function failed [how->mean, dtype->object]"))
        ∧ ∀ daily : TTable, resampleDaily wSparseGate = Except.ok daily →
            ("sparse range" ∈ (pipeline wSparseT ["pm2.5"] (some 0) (some 0)).1 ↔
                daily.rows.length < 7)
            ∧ (pipeline wSparseT ["pm2.5"] (some 0) (some 0)).2 = RunResult.done daily
            ∧ (daily.rows = [] ↔ wSparseGate.rows = [])) :=
  ⟨⟨rfl, by with_unfolding_all decide, by with_unfolding_all decide,
      by with_unfolding_all decide⟩,
    by with_unfolding_all decide,
    sparse_warning_amended wSparseT "Date" ["pm2.5"] 0 0 rfl
      (by with_unfolding_all decide) (by with_unfolding_all decide)
      (by with_unfolding_all decide)⟩
